import Mathlib

/-!
Verification development for the jlpt-anki-generator pipeline.

The embedding below follows the Python sources under `scripts/`:
`create_tiered_decks.py` and `create_kanji_decks.py` are embedded from their
code directly.  The helper module `jmdict_utils.py` is not part of the source
tree (only its tests and call sites are), so its functions are modelled from
the specification, as marked in each doc comment.  Python dictionaries with a
fixed insertion order are rendered as association lists, Python strings as
Lean strings iterated over their character lists, and fallible lookups as
`Option`.
-/

/-- Ceiling division on naturals: `ceilDivNat s n` is the least `k` with
`s ≤ n * k` when `0 < n`, written with the usual `(s + n - 1) / n` formula. -/
def ceilDivNat (s n : Nat) : Nat :=
  (s + n - 1) / n

/-- Comparison used to sort kanji frequency entries: ascending rank. -/
def rankLE (a b : String × Nat) : Prop :=
  a.2 ≤ b.2

instance : DecidableRel rankLE :=
  fun a b => Nat.decLe a.2 b.2

instance : IsTotal (String × Nat) rankLE :=
  ⟨fun a b => Nat.le_total a.2 b.2⟩

instance : IsTrans (String × Nat) rankLE :=
  ⟨fun _ _ _ h1 h2 => Nat.le_trans h1 h2⟩

/-- Modelled from the spec: the sorting step of `calculate_frequency_tiers`
in the missing `jmdict_utils.py` (spec 4.1): sort kanji by ascending rank
with a stable tie-break, i.e. entries with equal ranks keep the insertion
order of the input map.  Stable insertion sort computes the same list as the
stable sort used by Python. -/
def sortByRank (freq : List (String × Nat)) : List (String × Nat) :=
  freq.insertionSort rankLE

/-- Modelled from the spec: the tier assigned to the entry at position `i`
(0-based) of the sorted list, where `tierSize` is the quartile size
computed as the ceiling of a quarter of the entry count (spec 4.1): the
first `tierSize` entries get tier 1, the next `tierSize` tier 2, the next
quartile tier 3, and the remainder tier 4. -/
def tierOfIndex (tierSize i : Nat) : Nat :=
  if i < tierSize then 1
  else if i < 2 * tierSize then 2
  else if i < 3 * tierSize then 3
  else 4

/-- Modelled from the spec: the enumeration loop of
`calculate_frequency_tiers` in the missing `jmdict_utils.py` (spec 4.1),
pairing each kanji of the sorted list with the tier of its position. -/
def assignTiers (tierSize : Nat) : Nat → List (String × Nat) → List (String × Nat)
  | _, [] => []
  | i, p :: rest => (p.1, tierOfIndex tierSize i) :: assignTiers tierSize (i + 1) rest

/-- Modelled from the spec: `calculate_frequency_tiers` from the missing
`jmdict_utils.py` (spec 4.1).  Input is the frequency map (kanji to positive
rank) as an association list in insertion order; an empty input yields an
empty result; otherwise the entries are stably sorted by ascending rank and
cut into four contiguous count-based quartiles of size the ceiling of a
quarter of the count. -/
def calculate_frequency_tiers (freq : List (String × Nat)) : List (String × Nat) :=
  if freq = [] then []
  else assignTiers (ceilDivNat freq.length 4) 0 (sortByRank freq)

/-- Dictionary lookup on an association list, as Python `m.get(k)` /
`k in m`: the first entry with the given key. -/
def lookupTier (m : List (String × Nat)) (k : String) : Option Nat :=
  (m.find? (fun p => p.1 == k)).map (fun p => p.2)

/-- Embeds `get_new_jlpt_level` from `src/scripts/create_tiered_decks.py`
(lines 235-250).  Levels and grades are Python integers; an absent grade is
`none`.  The branch `if grade and grade <= 6` tests Python truthiness first,
so a grade of `0` is treated like an absent grade. -/
def get_new_jlpt_level (old_level : Int) (grade : Option Int) : String :=
  if old_level = 4 then "N5"
  else if old_level = 3 then "N4"
  else if old_level = 2 then
    match grade with
    | some g => if g ≠ 0 ∧ g ≤ 6 then "N3" else "N2"
    | none => "N2"
  else if old_level = 1 then "N1"
  else "unknown"

/-- Embeds the inline level branching in `main` of
`src/scripts/create_kanji_decks.py` (lines 341-357): the bucket the record
is appended to, or `none` when the entry is counted as skipped.  The
level-2 branch reads `if grade and grade <= 6`, Python truthiness again. -/
def inline_kanji_bucket (level : Int) (grade : Option Int) : Option String :=
  if level = 4 then some "N5"
  else if level = 3 then some "N4"
  else if level = 2 then
    match grade with
    | some g => if g ≠ 0 ∧ g ≤ 6 then some "N3" else some "N2"
    | none => some "N2"
  else if level = 1 then some "N1"
  else none

/-- Embeds the classification path of `main` in
`src/scripts/create_tiered_decks.py` (lines 386-397): the record is placed
in the bucket named by `get_new_jlpt_level` exactly when that name is one of
the five group keys, and skipped otherwise. -/
def tiered_kanji_bucket (level : Int) (grade : Option Int) : Option String :=
  let nl := get_new_jlpt_level level grade
  if nl ∈ ["N5", "N4", "N3", "N2", "N1"] then some nl else none

/-- A kanji-form or kana-form variant of a word: its text and its
commonality flag (spec 3, Word Entry). -/
structure Form where
  text : String
  common : Bool
  deriving Repr, DecidableEq

/-- One gloss of a sense, tagged by language (spec 3, Word Entry). -/
structure Gloss where
  lang : String
  text : String
  deriving Repr, DecidableEq

/-- One sense of a word: part-of-speech tags, glosses tagged by language,
usage-info strings and miscellaneous tags (spec 3, Word Entry).  Example
groups are not modelled; no claim below depends on them. -/
structure Sense where
  partOfSpeech : List String
  gloss : List Gloss
  info : List String
  misc : List String
  deriving Repr, DecidableEq

/-- A word entry: kanji-form variants, kana-form variants and senses
(spec 3, Word Entry). -/
structure Word where
  kanji : List Form
  kana : List Form
  sense : List Sense
  deriving Repr, DecidableEq

/-- The five proficiency levels of the new scale, easiest to hardest. -/
inductive JLPT where
  | N5
  | N4
  | N3
  | N2
  | N1
  deriving Repr, DecidableEq

/-- Hardness rank of a level: level-1 (N1) is hardest (spec 4.2). -/
def JLPT.rankVal : JLPT → Nat
  | .N5 => 1
  | .N4 => 2
  | .N3 => 3
  | .N2 => 4
  | .N1 => 5

/-- Classification outcome of `get_word_jlpt_level`: one of the five
levels, or the kana-only marker, or the non-proficiency marker.  Python
represents these as the strings "N5".."N1", "kana_only", "non_jlpt". -/
inductive WordLevel where
  | kana_only
  | non_jlpt
  | jlpt (l : JLPT)
  deriving Repr, DecidableEq

/-- String name of a word-level outcome, as returned by the Python code. -/
def WordLevel.toName : WordLevel → String
  | .kana_only => "kana_only"
  | .non_jlpt => "non_jlpt"
  | .jlpt .N5 => "N5"
  | .jlpt .N4 => "N4"
  | .jlpt .N3 => "N3"
  | .jlpt .N2 => "N2"
  | .jlpt .N1 => "N1"

/-- Characters of every kanji-form variant of a word, in order. -/
def wordKanjiChars (w : Word) : List Char :=
  (w.kanji.map (fun f => f.text.data)).flatten

/-- Modelled from the spec: the hardest level found by looking every
character of the given list up in the proficiency map, skipping characters
absent from the map; `none` when no character is in the map (spec 4.2). -/
def bestLevel (m : Char → Option JLPT) : List Char → Option JLPT
  | [] => none
  | c :: cs =>
    match m c, bestLevel m cs with
    | some l, some b => some (if b.rankVal ≤ l.rankVal then l else b)
    | some l, none => some l
    | none, r => r

/-- Modelled from the spec: `get_word_jlpt_level` from the missing
`jmdict_utils.py` (spec 4.2).  A word with no kanji forms is kana-only; a
word none of whose kanji is in the proficiency map is non-proficiency;
otherwise the hardest level among all kanji literals appearing in any of
its kanji-form variants wins. -/
def get_word_jlpt_level (w : Word) (m : Char → Option JLPT) : WordLevel :=
  if w.kanji = [] then .kana_only
  else
    match bestLevel m (wordKanjiChars w) with
    | some l => .jlpt l
    | none => .non_jlpt

/-- Text of the first kanji-form variant of a word, empty when the word is
kana-only. -/
def firstKanjiText (w : Word) : String :=
  match w.kanji with
  | [] => ""
  | f :: _ => f.text

/-- Modelled from the spec: the list of tiers found for the characters of
the first kanji-form text of a word, in text order, skipping characters
absent from the tier map (spec 4.3). -/
def wordTierList (w : Word) (tm : Char → Option Nat) : List Nat :=
  match w.kanji with
  | [] => []
  | f :: _ => f.text.data.filterMap tm

/-- Modelled from the spec: `get_word_frequency_tier` from the missing
`jmdict_utils.py` (spec 4.3).  No found tier yields `none`; strategy
"average" yields the mean of the found tiers rounded up to the next
integer; strategy "first" yields the first found tier; every other
strategy, "conservative" included, yields the maximum found tier. -/
def get_word_frequency_tier (w : Word) (tm : Char → Option Nat) (strategy : String) :
    Option Nat :=
  let tiers := wordTierList w tm
  if tiers = [] then none
  else if strategy = "average" then some (ceilDivNat tiers.sum tiers.length)
  else if strategy = "first" then tiers.head?
  else some (tiers.foldl max 0)

/-- Modelled from the spec: tag-name resolution from the missing
`jmdict_utils.py` (spec 4.4): a tag is looked up in the tag-name table and
falls back to the raw tag string when unmapped. -/
def resolveTag (tags : String → Option String) (t : String) : String :=
  (tags t).getD t

/-- Modelled from the spec: `format_sense` from the missing
`jmdict_utils.py` (spec 4.4).  Part-of-speech tags are rendered
parenthetically, followed by the English-language glosses joined with a
separator, followed by usage-info strings and miscellaneous tags in
brackets; a component that is absent contributes nothing, and a sense with
no component at all renders as the empty string. -/
def format_sense (s : Sense) (tags : String → Option String) : String :=
  let posStr :=
    if s.partOfSpeech = [] then ""
    else "(" ++ String.intercalate ", " (s.partOfSpeech.map (resolveTag tags)) ++ ")"
  let glossStr :=
    String.intercalate "; " ((s.gloss.filter (fun g => g.lang == "eng")).map (fun g => g.text))
  let infoStr :=
    if s.info = [] then "" else " [" ++ String.intercalate "; " s.info ++ "]"
  let miscStr :=
    if s.misc = [] then ""
    else " [" ++ String.intercalate "; " (s.misc.map (resolveTag tags)) ++ "]"
  let core :=
    if posStr = "" then glossStr
    else if glossStr = "" then posStr
    else posStr ++ " " ++ glossStr
  core ++ infoStr ++ miscStr

/-- Modelled from the spec: the display-form choice of `process_word` from
the missing `jmdict_utils.py` (spec 4.4): prefer the first kanji-form
variant flagged common, else the first kanji-form variant, else the first
kana-form variant; a word with neither kanji nor kana forms has no
displayed form. -/
def get_primary_form (w : Word) : Option String :=
  match w.kanji.find? (fun f => f.common) with
  | some f => some f.text
  | none =>
    match w.kanji with
    | f :: _ => some f.text
    | [] =>
      match w.kana with
      | f :: _ => some f.text
      | [] => none

/-- Number the rendered senses sequentially starting at the given index. -/
def numberSenses : Nat → List String → List String
  | _, [] => []
  | i, s :: rest => (toString i ++ ". " ++ s) :: numberSenses (i + 1) rest

/-- Modelled from the spec: the combined sense description of
`process_word` (spec 4.4): one sense is rendered alone, several are
numbered sequentially starting at 1. -/
def combineSenses : List String → String
  | [s] => s
  | xs => String.intercalate "\n" (numberSenses 1 xs)

/-- Extractor output of `process_word`: displayed form, joined readings,
combined sense description and the commonality flag. -/
structure ProcessedWord where
  word : String
  readings : String
  senses : String
  is_common : Bool
  deriving Repr, DecidableEq

/-- Modelled from the spec: `process_word` from the missing
`jmdict_utils.py` (spec 4.4).  A word with no displayed form is rejected;
senses rendering to the empty string are dropped and a word with no
renderable sense is rejected; the commonality flag is true when a kanji
form or a kana form is flagged common.  Example rendering is not modelled;
no claim below depends on it. -/
def process_word (w : Word) (tags : String → Option String) : Option ProcessedWord :=
  match get_primary_form w with
  | none => none
  | some form =>
    let rendered := ((w.sense.map (fun s => format_sense s tags)).filter (fun s => s ≠ ""))
    if rendered = [] then none
    else
      some
        { word := form
          readings := String.intercalate ", " (w.kana.map (fun f => f.text))
          senses := combineSenses rendered
          is_common := w.kanji.any (fun f => f.common) || w.kana.any (fun f => f.common) }

/-- Embeds the kanji grouping step of `main` in
`src/scripts/create_tiered_decks.py` (lines 378-397): given the old JLPT
level and grade of a processed record and the tier looked up from the tier
map (`none` when the literal has no tier), returns the (level, tier) group
the record is appended to, or `none` when the record is counted as
skipped.  The guard `result.get("tier")` is a Python truthiness test, so a
tier of `0` would also skip. -/
def kanji_group_step (level : Int) (grade : Option Int) (tier : Option Nat) :
    Option (String × Nat) :=
  let nl := get_new_jlpt_level level grade
  if nl ∈ ["N5", "N4", "N3", "N2", "N1"] then
    match tier with
    | some t => if t ≠ 0 then some (nl, t) else none
    | none => none
  else none

/-- Embeds the vocabulary grouping step of `main` in
`src/scripts/create_tiered_decks.py` (lines 423-450): a word whose level
name is not one of the five group keys is skipped, then the word frequency
tier is computed and the word is placed in the (level, tier) group when the
tier is truthy, and skipped otherwise. -/
def vocab_group_step (w : Word) (jm : Char → Option JLPT) (tm : Char → Option Nat)
    (strategy : String) : Option (String × Nat) :=
  let nl := (get_word_jlpt_level w jm).toName
  if nl ∈ ["N5", "N4", "N3", "N2", "N1"] then
    match get_word_frequency_tier w tm strategy with
    | some t => if t ≠ 0 then some (nl, t) else none
    | none => none
  else none

theorem tierOfIndex_cases (t i : Nat) :
    tierOfIndex t i = 1 ∨ tierOfIndex t i = 2 ∨ tierOfIndex t i = 3 ∨ tierOfIndex t i = 4 := by
  unfold tierOfIndex
  split
  · exact Or.inl rfl
  split
  · exact Or.inr (Or.inl rfl)
  split
  · exact Or.inr (Or.inr (Or.inl rfl))
  · exact Or.inr (Or.inr (Or.inr rfl))

theorem assignTiers_map_fst (t : Nat) (i : Nat) (l : List (String × Nat)) :
    (assignTiers t i l).map Prod.fst = l.map Prod.fst := by
  induction l generalizing i with
  | nil => rfl
  | cons p rest ih => simp [assignTiers, ih]

theorem length_assignTiers (t : Nat) (i : Nat) (l : List (String × Nat)) :
    (assignTiers t i l).length = l.length := by
  induction l generalizing i with
  | nil => rfl
  | cons p rest ih => simp [assignTiers, ih]

theorem snd_of_mem_assignTiers (t : Nat) (i : Nat) (l : List (String × Nat))
    (p : String × Nat) (hp : p ∈ assignTiers t i l) :
    ∃ j, p.2 = tierOfIndex t j := by
  induction l generalizing i with
  | nil => simp [assignTiers] at hp
  | cons q rest ih =>
    simp only [assignTiers, List.mem_cons] at hp
    rcases hp with h | h
    · exact ⟨i, by rw [h]⟩
    · exact ih (i + 1) h

theorem assignTiers_getElem? (t : Nat) (i j : Nat) (l : List (String × Nat)) :
    (assignTiers t i l)[j]? = l[j]?.map (fun p => (p.1, tierOfIndex t (i + j))) := by
  induction l generalizing i j with
  | nil => simp [assignTiers]
  | cons p rest ih =>
    cases j with
    | zero => simp [assignTiers]
    | succ j =>
      simp only [assignTiers, List.getElem?_cons_succ, ih (i + 1) j]
      have : i + 1 + j = i + (j + 1) := by omega
      rw [this]

theorem calculate_frequency_tiers_keys_perm (freq : List (String × Nat)) :
    ((calculate_frequency_tiers freq).map Prod.fst).Perm (freq.map Prod.fst) := by
  unfold calculate_frequency_tiers
  split
  · rename_i h
    rw [h]
  · rw [assignTiers_map_fst]
    exact (List.perm_insertionSort rankLE freq).map Prod.fst

theorem snd_of_mem_calculate_frequency_tiers (freq : List (String × Nat))
    (p : String × Nat) (hp : p ∈ calculate_frequency_tiers freq) :
    p.2 = 1 ∨ p.2 = 2 ∨ p.2 = 3 ∨ p.2 = 4 := by
  unfold calculate_frequency_tiers at hp
  split at hp
  · simp at hp
  · obtain ⟨j, hj⟩ := snd_of_mem_assignTiers _ _ _ _ hp
    rw [hj]
    exact tierOfIndex_cases _ j

theorem lookupTier_isSome_of_mem_keys (m : List (String × Nat)) (k : String)
    (h : k ∈ m.map Prod.fst) : (lookupTier m k).isSome = true := by
  rcases List.mem_map.mp h with ⟨p, hp, hk⟩
  unfold lookupTier
  have hfind : (List.find? (fun p => p.1 == k) m).isSome = true :=
    List.find?_isSome.mpr ⟨p, hp, by simp [hk]⟩
  cases hcase : List.find? (fun p => p.1 == k) m with
  | none => rw [hcase] at hfind; simp at hfind
  | some q => rfl

theorem pairwise_rankLE_filter_eq (r : Nat) (l : List (String × Nat)) :
    (l.filter (fun p => p.2 == r)).Pairwise rankLE := by
  induction l with
  | nil => simp
  | cons a l ih =>
    rw [List.filter_cons]
    split
    · rename_i ha
      refine List.Pairwise.cons ?_ ih
      intro b hb
      have hb2 : b.2 = r := by simpa using List.of_mem_filter hb
      have ha2 : a.2 = r := by simpa using ha
      unfold rankLE
      omega
    · exact ih

theorem sortByRank_stable (freq : List (String × Nat)) (r : Nat) :
    (sortByRank freq).filter (fun p => p.2 == r) = freq.filter (fun p => p.2 == r) := by
  have hsub : (freq.filter (fun p => p.2 == r)).Sublist (sortByRank freq) :=
    List.sublist_insertionSort (pairwise_rankLE_filter_eq r freq) (List.filter_sublist freq)
  have hsub2 : (freq.filter (fun p => p.2 == r)).Sublist
      ((sortByRank freq).filter (fun p => p.2 == r)) := by
    have h := List.Sublist.filter (fun p => p.2 == r) hsub
    rwa [List.filter_filter, show (fun (a : String × Nat) => (a.2 == r) && (a.2 == r))
      = (fun a => a.2 == r) from funext (fun a => Bool.and_self _)] at h
  have hperm : ((sortByRank freq).filter (fun p => p.2 == r)).Perm
      (freq.filter (fun p => p.2 == r)) :=
    (List.perm_insertionSort rankLE freq).filter _
  exact (List.Sublist.eq_of_length hsub2 hperm.length_eq.symm).symm

theorem ceilDivNat_eq_ceil (s n : Nat) (hn : 0 < n) :
    (ceilDivNat s n : Int) = ⌈(s : ℚ) / (n : ℚ)⌉ := by
  have hnq : (0 : ℚ) < (n : ℚ) := by exact_mod_cast hn
  have h1 : ceilDivNat s n * n ≤ s + n - 1 := Nat.div_mul_le_self (s + n - 1) n
  have h2 : s + n - 1 < ceilDivNat s n * n + n := by
    have h := (Nat.div_lt_iff_lt_mul hn).mp (Nat.lt_succ_self ((s + n - 1) / n))
    have he : ((s + n - 1) / n + 1) * n = ceilDivNat s n * n + n := by
      rw [Nat.succ_mul]; rfl
    rw [he] at h
    exact h
  obtain ⟨m, hm⟩ : ∃ m, ceilDivNat s n * n = m := ⟨_, rfl⟩
  rw [hm] at h1 h2
  have hs1 : s ≤ m := by omega
  have hs2 : m < s + n := by omega
  have hqn : (ceilDivNat s n : ℚ) * (n : ℚ) = (m : ℚ) := by exact_mod_cast hm
  have hs1q : (s : ℚ) ≤ (m : ℚ) := by exact_mod_cast hs1
  have hs2q : (m : ℚ) < (s : ℚ) + (n : ℚ) := by exact_mod_cast hs2
  rw [eq_comm, Int.ceil_eq_iff]
  constructor
  · rw [lt_div_iff₀ hnq]
    push_cast
    nlinarith [hqn, hs2q]
  · rw [div_le_iff₀ hnq]
    push_cast
    linarith [hqn, hs1q]

/-- C1: for every frequency map whose keys are distinct, the tier map
returned by `calculate_frequency_tiers` has exactly the same key set, each
key once, every assigned tier is in 1..4, looking up every key of the
input in the result succeeds, and the empty map yields the empty result. -/
theorem C1_tier_map_total (freq : List (String × Nat))
    (hnd : (freq.map Prod.fst).Nodup) :
    ((calculate_frequency_tiers freq).map Prod.fst).Perm (freq.map Prod.fst)
    ∧ ((calculate_frequency_tiers freq).map Prod.fst).Nodup
    ∧ (∀ p ∈ calculate_frequency_tiers freq, p.2 = 1 ∨ p.2 = 2 ∨ p.2 = 3 ∨ p.2 = 4)
    ∧ (∀ k ∈ freq.map Prod.fst, (lookupTier (calculate_frequency_tiers freq) k).isSome = true)
    ∧ (freq = [] → calculate_frequency_tiers freq = []) :=
  ⟨calculate_frequency_tiers_keys_perm freq,
    ((calculate_frequency_tiers_keys_perm freq).nodup_iff).mpr hnd,
    fun p hp => snd_of_mem_calculate_frequency_tiers freq p hp,
    fun k hk => lookupTier_isSome_of_mem_keys _ k
      (((calculate_frequency_tiers_keys_perm freq).mem_iff).mpr hk),
    fun h => by rw [h]; rfl⟩

/-- Witness for C1 at a concrete two-entry frequency map. -/
theorem C1_tier_map_total_witness :
    ([("a", 3), ("b", 1)].map (Prod.fst : String × Nat → String)).Nodup
    ∧ (lookupTier (calculate_frequency_tiers [("a", 3), ("b", 1)]) "a").isSome = true :=
  ⟨by decide, (C1_tier_map_total [("a", 3), ("b", 1)] (by decide)).2.2.2.1 "a" (by decide)⟩

/-- C2: `calculate_frequency_tiers` sorts by ascending rank with a stable
tie-break (the entries of any fixed rank keep their input order), the
quartile size is the ceiling of a quarter of the entry count, the entry at
sorted position j keeps its kanji and receives tier 1, 2, 3 or 4 by
quartile of j, the eight-entry map with ranks 1..8 receives the tiers
1,1,2,2,3,3,4,4 in rank order, and a single entry receives tier 1. -/
theorem C2_sort_and_quartiles (freq : List (String × Nat)) :
    (sortByRank freq).Sorted rankLE
    ∧ (∀ r : Nat, (sortByRank freq).filter (fun p => p.2 == r)
        = freq.filter (fun p => p.2 == r))
    ∧ ((ceilDivNat freq.length 4 : Int) = ⌈(freq.length : ℚ) / 4⌉)
    ∧ (∀ j k r, (sortByRank freq)[j]? = some (k, r) →
        (calculate_frequency_tiers freq)[j]? = some (k,
          if j < ceilDivNat freq.length 4 then 1
          else if j < 2 * ceilDivNat freq.length 4 then 2
          else if j < 3 * ceilDivNat freq.length 4 then 3
          else 4))
    ∧ calculate_frequency_tiers
        [("k1", 1), ("k2", 2), ("k3", 3), ("k4", 4), ("k5", 5), ("k6", 6), ("k7", 7), ("k8", 8)]
        = [("k1", 1), ("k2", 1), ("k3", 2), ("k4", 2), ("k5", 3), ("k6", 3), ("k7", 4), ("k8", 4)]
    ∧ calculate_frequency_tiers [("k1", 5)] = [("k1", 1)] := by
  refine ⟨List.sorted_insertionSort rankLE freq, fun r => sortByRank_stable freq r,
    ?_, ?_, by decide, by decide⟩
  · have h := ceilDivNat_eq_ceil freq.length 4 (by norm_num)
    simpa using h
  · intro j k r hj
    have hne : freq ≠ [] := by
      intro h
      rw [h] at hj
      simp [sortByRank] at hj
    unfold calculate_frequency_tiers
    rw [if_neg hne, assignTiers_getElem?, hj]
    simp [tierOfIndex]

/-- Witness for C2 at a concrete map with a rank tie: both entries have
rank 2, and the first in insertion order is first after sorting and gets
tier 1. -/
theorem C2_sort_and_quartiles_witness :
    (sortByRank [("x", 2), ("y", 2)])[0]? = some ("x", 2)
    ∧ (calculate_frequency_tiers [("x", 2), ("y", 2)])[0]? = some ("x", 1) :=
  ⟨by decide, by
    have h := (C2_sort_and_quartiles [("x", 2), ("y", 2)]).2.2.2.1 0 "x" 2 (by decide)
    simpa using h⟩

/-- C3 counterexample: at old level 2 with grade 0 — a grade that is
present and at most 6 — the code returns "N2", not "N3" as the claim
states, because `if grade and grade <= 6` is false for a zero grade. -/
theorem C3_level_map_counterexample :
    ((0 : Int) ≤ 6) ∧ get_new_jlpt_level 2 (some 0) = "N2"
    ∧ get_new_jlpt_level 2 (some 0) ≠ "N3" := by
  refine ⟨by decide, by decide, by decide⟩

/-- C3 (amended): the old-to-new level mapping returns N5 for old level 4,
N4 for 3, N3 for 2 when a grade is present, nonzero and at most 6, N2 for
2 when the grade is absent, zero, or greater than 6, N1 for 1, and
"unknown" for every other old level. -/
theorem C3_level_map_amended (g : Option Int) (v lvl : Int) :
    get_new_jlpt_level 4 g = "N5"
    ∧ get_new_jlpt_level 3 g = "N4"
    ∧ (v ≠ 0 → v ≤ 6 → get_new_jlpt_level 2 (some v) = "N3")
    ∧ (6 < v → get_new_jlpt_level 2 (some v) = "N2")
    ∧ get_new_jlpt_level 2 none = "N2"
    ∧ get_new_jlpt_level 2 (some 0) = "N2"
    ∧ get_new_jlpt_level 1 g = "N1"
    ∧ (lvl ≠ 1 → lvl ≠ 2 → lvl ≠ 3 → lvl ≠ 4 → get_new_jlpt_level lvl g = "unknown") := by
  refine ⟨by norm_num [get_new_jlpt_level], by norm_num [get_new_jlpt_level],
    fun h0 h6 => ?_, fun h6 => ?_, by norm_num [get_new_jlpt_level], by decide,
    by norm_num [get_new_jlpt_level], fun h1 h2 h3 h4 => ?_⟩
  · simp [get_new_jlpt_level, h0, h6]
  · have hng : ¬((v ≠ 0) ∧ v ≤ 6) := by omega
    simp [get_new_jlpt_level, hng]
  · simp [get_new_jlpt_level, h1, h2, h3, h4]

/-- Witness for the amended C3 at concrete levels and grades. -/
theorem C3_level_map_amended_witness :
    get_new_jlpt_level 2 (some 3) = "N3"
    ∧ get_new_jlpt_level 2 (some 7) = "N2"
    ∧ get_new_jlpt_level 5 none = "unknown" :=
  ⟨(C3_level_map_amended (some 3) 3 5).2.2.1 (by decide) (by decide),
   (C3_level_map_amended (some 7) 7 5).2.2.2.1 (by decide),
   (C3_level_map_amended none 7 5).2.2.2.2.2.2.2
     (by decide) (by decide) (by decide) (by decide)⟩

/-- C4: the inline level branching in the main loop of
create_kanji_decks.py and classification through get_new_jlpt_level as the
main loop of create_tiered_decks.py uses it place every record (every old
level and optional grade) in the same bucket, or both skip it. -/
theorem C4_duplicated_level_rule (level : Int) (grade : Option Int) :
    inline_kanji_bucket level grade = tiered_kanji_bucket level grade := by
  unfold inline_kanji_bucket tiered_kanji_bucket get_new_jlpt_level
  rcases grade with _ | g
  · by_cases h4 : level = 4 <;> by_cases h3 : level = 3 <;> by_cases h2 : level = 2 <;>
      by_cases h1 : level = 1 <;> simp +decide [h4, h3, h2, h1]
  · by_cases h4 : level = 4 <;> by_cases h3 : level = 3 <;> by_cases h2 : level = 2 <;>
      by_cases h1 : level = 1 <;> by_cases hg : (g ≠ 0) ∧ g ≤ 6 <;>
      simp +decide [h4, h3, h2, h1, hg]

theorem bestLevel_eq_none_of_forall (m : Char → Option JLPT) (cs : List Char)
    (h : ∀ c ∈ cs, m c = none) : bestLevel m cs = none := by
  induction cs with
  | nil => rfl
  | cons c cs ih =>
    rw [bestLevel, h c (List.mem_cons_self c cs), ih (fun c2 hc2 => h c2 (List.mem_cons_of_mem c hc2))]

theorem forall_none_of_bestLevel_eq_none (m : Char → Option JLPT) (cs : List Char)
    (h : bestLevel m cs = none) : ∀ c ∈ cs, m c = none := by
  induction cs with
  | nil => simp
  | cons c cs ih =>
    rw [bestLevel] at h
    cases hm : m c with
    | some l =>
      rw [hm] at h
      cases hb : bestLevel m cs <;> rw [hb] at h <;> simp at h
    | none =>
      rw [hm] at h
      intro c2 hc2
      rcases List.mem_cons.mp hc2 with rfl | hc2
      · exact hm
      · exact ih h c2 hc2

theorem bestLevel_spec (m : Char → Option JLPT) (cs : List Char) (l : JLPT)
    (h : bestLevel m cs = some l) :
    (∃ c ∈ cs, m c = some l)
    ∧ ∀ c ∈ cs, ∀ b, m c = some b → b.rankVal ≤ l.rankVal := by
  induction cs generalizing l with
  | nil => simp [bestLevel] at h
  | cons c cs ih =>
    rw [bestLevel] at h
    cases hm : m c with
    | none =>
      rw [hm] at h
      obtain ⟨⟨c2, hc2, hm2⟩, hall⟩ := ih l h
      refine ⟨⟨c2, List.mem_cons_of_mem c hc2, hm2⟩, ?_⟩
      intro c3 hc3 b hb
      rcases List.mem_cons.mp hc3 with rfl | hc3
      · rw [hm] at hb; cases hb
      · exact hall c3 hc3 b hb
    | some l2 =>
      rw [hm] at h
      cases hb : bestLevel m cs with
      | none =>
        rw [hb] at h
        simp only [Option.some.injEq] at h
        subst h
        refine ⟨⟨c, List.mem_cons_self c cs, hm⟩, ?_⟩
        intro c3 hc3 b hbb
        rcases List.mem_cons.mp hc3 with rfl | hc3
        · rw [hm] at hbb
          cases hbb
          exact le_refl _
        · rw [forall_none_of_bestLevel_eq_none m cs hb c3 hc3] at hbb
          cases hbb
      | some b =>
        rw [hb] at h
        change some (if b.rankVal ≤ l2.rankVal then l2 else b) = some l at h
        obtain ⟨⟨c2, hc2, hm2⟩, hall⟩ := ih b hb
        by_cases hcmp : b.rankVal ≤ l2.rankVal
        · rw [if_pos hcmp] at h
          simp only [Option.some.injEq] at h
          subst h
          refine ⟨⟨c, List.mem_cons_self c cs, hm⟩, ?_⟩
          intro c3 hc3 b3 hb3
          rcases List.mem_cons.mp hc3 with rfl | hc3
          · rw [hm] at hb3; cases hb3; exact le_refl _
          · exact le_trans (hall c3 hc3 b3 hb3) hcmp
        · rw [if_neg hcmp] at h
          simp only [Option.some.injEq] at h
          subst h
          refine ⟨⟨c2, List.mem_cons_of_mem c hc2, hm2⟩, ?_⟩
          intro c3 hc3 b3 hb3
          rcases List.mem_cons.mp hc3 with rfl | hc3
          · rw [hm] at hb3; cases hb3; omega
          · exact hall c3 hc3 b3 hb3

theorem rankVal_ge_five (l : JLPT) (h : 5 ≤ l.rankVal) : l = JLPT.N1 := by
  cases l <;> first | rfl | simp [JLPT.rankVal] at h

/-- C5: get_word_jlpt_level is kana-only exactly on words with no kanji
forms; any level it returns is realized by some kanji character of some
kanji-form variant and is the hardest among all of them; a single N1 kanji
anywhere forces N1; and a word none of whose kanji characters is in the
proficiency map is non-proficiency. -/
theorem C5_word_level_hardest (w : Word) (m : Char → Option JLPT) :
    (get_word_jlpt_level w m = WordLevel.kana_only ↔ w.kanji = [])
    ∧ (∀ l, get_word_jlpt_level w m = WordLevel.jlpt l →
        (∃ c ∈ wordKanjiChars w, m c = some l)
        ∧ ∀ c ∈ wordKanjiChars w, ∀ b, m c = some b → b.rankVal ≤ l.rankVal)
    ∧ (w.kanji ≠ [] → (∃ c ∈ wordKanjiChars w, m c = some JLPT.N1) →
        get_word_jlpt_level w m = WordLevel.jlpt JLPT.N1)
    ∧ (w.kanji ≠ [] → (∀ c ∈ wordKanjiChars w, m c = none) →
        get_word_jlpt_level w m = WordLevel.non_jlpt) := by
  refine ⟨?_, ?_, ?_, ?_⟩
  · unfold get_word_jlpt_level
    by_cases hk : w.kanji = []
    · simp [hk]
    · rw [if_neg hk]
      cases hb : bestLevel m (wordKanjiChars w) <;> simp [hk]
  · intro l hl
    unfold get_word_jlpt_level at hl
    by_cases hk : w.kanji = []
    · rw [if_pos hk] at hl; cases hl
    · rw [if_neg hk] at hl
      cases hb : bestLevel m (wordKanjiChars w) with
      | none =>
        rw [hb] at hl
        change WordLevel.non_jlpt = WordLevel.jlpt l at hl
        cases hl
      | some l2 =>
        rw [hb] at hl
        change WordLevel.jlpt l2 = WordLevel.jlpt l at hl
        cases hl
        exact bestLevel_spec m _ _ hb
  · rintro hk ⟨c, hc, hm⟩
    unfold get_word_jlpt_level
    rw [if_neg hk]
    cases hb : bestLevel m (wordKanjiChars w) with
    | none =>
      exact absurd (forall_none_of_bestLevel_eq_none m _ hb c hc) (by rw [hm]; simp)
    | some l =>
      have hle := (bestLevel_spec m _ l hb).2 c hc _ hm
      have hl1 : l = JLPT.N1 := rankVal_ge_five l hle
      subst hl1
      rfl
  · intro hk hall
    unfold get_word_jlpt_level
    rw [if_neg hk, bestLevel_eq_none_of_forall m _ hall]

/-- Witness for C5: a word whose single kanji form contains an N1 and an
N3 kanji is classified N1. -/
theorem C5_word_level_hardest_witness :
    get_word_jlpt_level (Word.mk [Form.mk "ab" false] [] [])
      (fun c => if c = 'a' then some JLPT.N1 else if c = 'b' then some JLPT.N3 else none)
      = WordLevel.jlpt JLPT.N1 :=
  (C5_word_level_hardest (Word.mk [Form.mk "ab" false] [] [])
      (fun c => if c = 'a' then some JLPT.N1 else if c = 'b' then some JLPT.N3 else none)).2.2.1
    (by decide) ⟨'a', by decide, by decide⟩

/-- C6: for every word and tier map, a strategy string other than
"average" and "first" — "conservative" itself included — selects the
conservative branch, so any unrecognized strategy returns exactly what
"conservative" returns. -/
theorem C6_unknown_strategy_conservative (w : Word) (tm : Char → Option Nat)
    (strategy : String) (ha : strategy ≠ "average") (hf : strategy ≠ "first") :
    get_word_frequency_tier w tm strategy = get_word_frequency_tier w tm "conservative" := by
  unfold get_word_frequency_tier
  by_cases ht : wordTierList w tm = []
  · simp [ht]
  · simp +decide [ht, ha, hf]

/-- Witness for C6: strategy "unknown" on a two-kanji word with tiers 1
and 2 agrees with "conservative" (and both give the maximum, 2). -/
theorem C6_unknown_strategy_conservative_witness :
    get_word_frequency_tier (Word.mk [Form.mk "ab" false] [] [])
        (fun c => if c = 'a' then some 1 else if c = 'b' then some 2 else none) "unknown"
      = get_word_frequency_tier (Word.mk [Form.mk "ab" false] [] [])
        (fun c => if c = 'a' then some 1 else if c = 'b' then some 2 else none) "conservative"
    ∧ get_word_frequency_tier (Word.mk [Form.mk "ab" false] [] [])
        (fun c => if c = 'a' then some 1 else if c = 'b' then some 2 else none) "conservative"
      = some 2 :=
  ⟨C6_unknown_strategy_conservative (Word.mk [Form.mk "ab" false] [] [])
      (fun c => if c = 'a' then some 1 else if c = 'b' then some 2 else none)
      "unknown" (by decide) (by decide),
   by decide⟩

/-- C7: with strategy "average", whenever at least one kanji of the word
has a tier, the result is the ceiling of the arithmetic mean of the found
tiers — the exact rational mean rounded up, so exact integers stay put and
exact half-integers round up. -/
theorem C7_average_ceiling (w : Word) (tm : Char → Option Nat)
    (h : wordTierList w tm ≠ []) :
    get_word_frequency_tier w tm "average"
      = some (⌈((wordTierList w tm).sum : ℚ) / ((wordTierList w tm).length : ℚ)⌉.toNat) := by
  have hn : 0 < (wordTierList w tm).length := List.length_pos.mpr h
  have hceil := ceilDivNat_eq_ceil (wordTierList w tm).sum (wordTierList w tm).length hn
  unfold get_word_frequency_tier
  simp only [h, if_neg, if_pos, if_false]
  congr 1
  rw [← hceil]
  simp

/-- Witness for C7: on a word whose two kanji have tiers 1 and 4 the
average strategy returns 3, the ceiling of 2.5. -/
theorem C7_average_ceiling_witness :
    wordTierList (Word.mk [Form.mk "ab" false] [] [])
        (fun c => if c = 'a' then some 1 else if c = 'b' then some 4 else none) = [1, 4]
    ∧ get_word_frequency_tier (Word.mk [Form.mk "ab" false] [] [])
        (fun c => if c = 'a' then some 1 else if c = 'b' then some 4 else none) "average"
      = some 3 := by
  refine ⟨by decide, ?_⟩
  have h := C7_average_ceiling (Word.mk [Form.mk "ab" false] [] [])
    (fun c => if c = 'a' then some 1 else if c = 'b' then some 4 else none) (by decide)
  rw [h]
  have he : wordTierList (Word.mk [Form.mk "ab" false] [] [])
      (fun c => if c = 'a' then some 1 else if c = 'b' then some 4 else none) = [1, 4] := by
    decide
  rw [he]
  congr 1
  have h52 : (([1, 4] : List Nat).sum : ℚ) / (([1, 4] : List Nat).length : ℚ) = 5 / 2 := by
    norm_num
  rw [h52]
  have hc : (⌈(5 / 2 : ℚ)⌉ : Int) = 3 := by
    rw [Int.ceil_eq_iff]
    norm_num
  rw [hc]
  rfl

theorem data_asString (l : List Char) : (List.asString l).data = l :=
  rfl

theorem get_word_frequency_tier_congr (w w2 : Word) (tm : Char → Option Nat)
    (strategy : String) (h : wordTierList w tm = wordTierList w2 tm) :
    get_word_frequency_tier w tm strategy = get_word_frequency_tier w2 tm strategy := by
  unfold get_word_frequency_tier
  rw [h]

/-- C8: for every word, tier map and strategy, the result is absent
exactly when the word has no kanji form or no character of its first
kanji-form text has a tier; and a character without a tier is skipped —
removing it from the first kanji-form text never changes the result. -/
theorem C8_skip_and_no_tier (w : Word) (tm : Char → Option Nat) (strategy : String) :
    (get_word_frequency_tier w tm strategy = none ↔
      (w.kanji = [] ∨ ∀ c ∈ (firstKanjiText w).data, tm c = none))
    ∧ (∀ (pre suf : List Char) (c : Char) (b : Bool) (rest kana : List Form)
        (ss : List Sense),
        w = Word.mk (Form.mk (List.asString (pre ++ c :: suf)) b :: rest) kana ss →
        tm c = none →
        get_word_frequency_tier w tm strategy
          = get_word_frequency_tier
              (Word.mk (Form.mk (List.asString (pre ++ suf)) b :: rest) kana ss) tm strategy) := by
  constructor
  · have hnone : get_word_frequency_tier w tm strategy = none ↔ wordTierList w tm = [] := by
      unfold get_word_frequency_tier
      by_cases ht : wordTierList w tm = []
      · simp [ht]
      · simp only [ht, if_neg, iff_false]
        by_cases ha : strategy = "average"
        · simp [ha, ht]
        · by_cases hf : strategy = "first"
          · simp [ha, hf, ht, List.head?_eq_none_iff]
          · simp [ha, hf, ht]
    rw [hnone]
    unfold wordTierList firstKanjiText
    cases hk : w.kanji with
    | nil => simp
    | cons f rest =>
      simp only [List.filterMap_eq_nil_iff]
      constructor
      · intro hall
        exact Or.inr hall
      · rintro (hcontra | hall)
        · cases hcontra
        · exact hall
  · rintro pre suf c b rest kana ss rfl hc
    apply get_word_frequency_tier_congr
    unfold wordTierList
    simp [data_asString, List.filterMap_append, List.filterMap_cons, hc]

/-- Witness for C8: a kana-only word gets no tier, and dropping a
character that has no tier from the kanji text leaves the result
unchanged. -/
theorem C8_skip_and_no_tier_witness :
    get_word_frequency_tier (Word.mk [] [Form.mk "no" false] [])
        (fun c => if c = 'a' then some 1 else if c = 'b' then some 4 else none)
        "conservative" = none
    ∧ get_word_frequency_tier (Word.mk [Form.mk (List.asString ['a', 'x', 'b']) false] [] [])
        (fun c => if c = 'a' then some 1 else if c = 'b' then some 4 else none)
        "conservative"
      = get_word_frequency_tier (Word.mk [Form.mk (List.asString ['a', 'b']) false] [] [])
        (fun c => if c = 'a' then some 1 else if c = 'b' then some 4 else none)
        "conservative" :=
  ⟨(C8_skip_and_no_tier (Word.mk [] [Form.mk "no" false] [])
      (fun c => if c = 'a' then some 1 else if c = 'b' then some 4 else none)
      "conservative").1.mpr (Or.inl rfl),
   (C8_skip_and_no_tier (Word.mk [Form.mk (List.asString ['a', 'x', 'b']) false] [] [])
      (fun c => if c = 'a' then some 1 else if c = 'b' then some 4 else none)
      "conservative").2 ['a'] ['b'] 'x' false [] [] [] rfl (by decide)⟩

theorem intercalate_nil (sep : String) : String.intercalate sep [] = "" :=
  rfl

theorem intercalate_singleton (sep x : String) : String.intercalate sep [x] = x :=
  rfl

theorem paren_ne_empty (x : String) : ("(" ++ x ++ ")") ≠ "" := by
  intro h
  have hl := congrArg String.length h
  simp [String.length_append] at hl
  exact absurd hl.1.1 (by decide)

theorem get_primary_form_eq_none_iff (w : Word) :
    get_primary_form w = none ↔ w.kanji = [] ∧ w.kana = [] := by
  unfold get_primary_form
  cases hf : w.kanji.find? (fun f => f.common) with
  | some f =>
    have hne : w.kanji ≠ [] := by
      intro h
      rw [h] at hf
      cases hf
    cases hk : w.kanji with
    | nil => exact absurd hk hne
    | cons a l => simp [hk]
  | none =>
    cases hk : w.kanji with
    | cons a l => simp [hk]
    | nil =>
      cases hr : w.kana with
      | cons a l => simp [hk, hr]
      | nil => simp [hk, hr]

theorem format_sense_pos_only (s : Sense) (tags : String → Option String) (t : String)
    (hp : s.partOfSpeech = [t]) (hg : ∀ g ∈ s.gloss, g.lang ≠ "eng")
    (hi : s.info = []) (hm : s.misc = []) :
    format_sense s tags = "(" ++ resolveTag tags t ++ ")" := by
  have hgl : s.gloss.filter (fun g => g.lang == "eng") = [] := by
    rw [List.filter_eq_nil_iff]
    intro g hgm
    simpa using hg g hgm
  unfold format_sense
  rw [hp, hgl, hi, hm]
  simp [intercalate_singleton, intercalate_nil, paren_ne_empty]

/-- C9: process_word rejects a word with an empty sense list and a word
none of whose senses renders any content; a sense with no English gloss,
no part-of-speech tags, no usage info and no miscellaneous tags renders
nothing; while a word with a form whose single sense carries one
part-of-speech tag and no English gloss is kept, with its sense
description being exactly the non-empty parenthesized tag name. -/
theorem C9_reject_and_bracket_only (w : Word) (tags : String → Option String) :
    (w.sense = [] → process_word w tags = none)
    ∧ ((∀ s ∈ w.sense, format_sense s tags = "") → process_word w tags = none)
    ∧ (∀ s : Sense, s.partOfSpeech = [] → (∀ g ∈ s.gloss, g.lang ≠ "eng") →
        s.info = [] → s.misc = [] → format_sense s tags = "")
    ∧ ((w.kanji ≠ [] ∨ w.kana ≠ []) → (∃ s ∈ w.sense, format_sense s tags ≠ "") →
        (process_word w tags).isSome = true)
    ∧ (∀ t s, w.sense = [s] → (w.kanji ≠ [] ∨ w.kana ≠ []) →
        s.partOfSpeech = [t] → (∀ g ∈ s.gloss, g.lang ≠ "eng") →
        s.info = [] → s.misc = [] →
        ∃ pr, process_word w tags = some pr
          ∧ pr.senses = "(" ++ resolveTag tags t ++ ")"
          ∧ pr.senses ≠ "") := by
  refine ⟨?_, ?_, ?_, ?_, ?_⟩
  · intro hs
    unfold process_word
    cases get_primary_form w with
    | none => rfl
    | some f => simp [hs]
  · intro hall
    unfold process_word
    cases get_primary_form w with
    | none => rfl
    | some f =>
      have hr : (w.sense.map (fun s => format_sense s tags)).filter (fun s => s ≠ "") = [] := by
        rw [List.filter_eq_nil_iff]
        intro x hx
        rcases List.mem_map.mp hx with ⟨s, hs, rfl⟩
        simp [hall s hs]
      simp only [hr]
      rfl
  · intro s hp hg hi hm
    have hgl : s.gloss.filter (fun g => g.lang == "eng") = [] := by
      rw [List.filter_eq_nil_iff]
      intro g hgm
      simpa using hg g hgm
    unfold format_sense
    rw [hp, hgl, hi, hm]
    simp [intercalate_nil]
  · rintro hform ⟨s, hs, hne⟩
    unfold process_word
    cases hpf : get_primary_form w with
    | none =>
      rcases (get_primary_form_eq_none_iff w).mp hpf with ⟨h1, h2⟩
      rcases hform with h | h
      · exact absurd h1 h
      · exact absurd h2 h
    | some f =>
      have hmem : format_sense s tags ∈
          (w.sense.map (fun s => format_sense s tags)).filter (fun s => s ≠ "") := by
        rw [List.mem_filter]
        exact ⟨List.mem_map.mpr ⟨s, hs, rfl⟩, by simpa using hne⟩
      have hr : (w.sense.map (fun s => format_sense s tags)).filter (fun s => s ≠ "") ≠ [] :=
        List.ne_nil_of_mem hmem
      cases hflt : (w.sense.map (fun s => format_sense s tags)).filter (fun s => s ≠ "") with
      | nil => exact absurd hflt hr
      | cons a l => simp [hflt]
  · intro t s hsense hform hp hg hi hm
    have hfs := format_sense_pos_only s tags t hp hg hi hm
    unfold process_word
    cases hpf : get_primary_form w with
    | none =>
      rcases (get_primary_form_eq_none_iff w).mp hpf with ⟨h1, h2⟩
      rcases hform with h | h
      · exact absurd h1 h
      · exact absurd h2 h
    | some f =>
      rw [hsense, List.map_cons, List.map_nil]
      have hr : List.filter (fun s => decide (s ≠ "")) [format_sense s tags]
          = ["(" ++ resolveTag tags t ++ ")"] := by
        simp [hfs, paren_ne_empty]
      rw [hr]
      exact ⟨_, rfl, rfl, paren_ne_empty _⟩

/-- Witness for C9: a word with one kanji form whose single sense has the
part-of-speech tag "n" and only a German gloss is kept and renders as
"(noun)". -/
theorem C9_reject_and_bracket_only_witness :
    ∃ pr, process_word
        (Word.mk [Form.mk "x" false] []
          [Sense.mk ["n"] [Gloss.mk "ger" "Schule"] [] []])
        (fun t => if t = "n" then some "noun" else none) = some pr
      ∧ pr.senses = "(noun)" ∧ pr.senses ≠ "" := by
  obtain ⟨pr, h1, h2, h3⟩ := (C9_reject_and_bracket_only
      (Word.mk [Form.mk "x" false] [] [Sense.mk ["n"] [Gloss.mk "ger" "Schule"] [] []])
      (fun t => if t = "n" then some "noun" else none)).2.2.2.2 "n"
      (Sense.mk ["n"] [Gloss.mk "ger" "Schule"] [] []) rfl (Or.inl (by decide)) rfl
      (by decide) rfl rfl
  refine ⟨pr, h1, ?_, h3⟩
  rw [h2]
  rfl

theorem list_sum_le_four (l : List Nat) : (∀ x ∈ l, x ≤ 4) → l.sum ≤ 4 * l.length := by
  induction l with
  | nil => intro _; simp
  | cons x l ih =>
    intro hb
    have hx := hb x (List.mem_cons_self x l)
    have hr := ih (fun y hy => hb y (List.mem_cons_of_mem x hy))
    simp only [List.sum_cons, List.length_cons]
    omega

theorem list_length_le_sum (l : List Nat) : (∀ x ∈ l, 1 ≤ x) → l.length ≤ l.sum := by
  induction l with
  | nil => intro _; simp
  | cons x l ih =>
    intro hb
    have hx := hb x (List.mem_cons_self x l)
    have hr := ih (fun y hy => hb y (List.mem_cons_of_mem x hy))
    simp only [List.sum_cons, List.length_cons]
    omega

theorem le_foldl_max (l : List Nat) : ∀ a, a ≤ l.foldl max a := by
  induction l with
  | nil => intro a; simp
  | cons x l ih =>
    intro a
    simp only [List.foldl_cons]
    exact le_trans (Nat.le_max_left a x) (ih (max a x))

theorem foldl_max_le_four (l : List Nat) : ∀ a, a ≤ 4 → (∀ x ∈ l, x ≤ 4) →
    l.foldl max a ≤ 4 := by
  induction l with
  | nil => intro a ha _; simpa using ha
  | cons x l ih =>
    intro a ha hb
    simp only [List.foldl_cons]
    exact ih (max a x) (Nat.max_le.mpr ⟨ha, hb x (List.mem_cons_self x l)⟩)
      (fun y hy => hb y (List.mem_cons_of_mem x hy))

theorem ceilDivNat_le_of_le (s n b : Nat) (hn : 0 < n) (h : s ≤ n * b) :
    ceilDivNat s n ≤ b := by
  unfold ceilDivNat
  rw [Nat.div_le_iff_le_mul_add_pred hn]
  obtain ⟨m, hm⟩ : ∃ m, n * b = m := ⟨_, rfl⟩
  rw [hm] at h ⊢
  omega

theorem one_le_ceilDivNat (s n : Nat) (hn : 0 < n) (hs : 1 ≤ s) : 1 ≤ ceilDivNat s n := by
  unfold ceilDivNat
  rw [Nat.le_div_iff_mul_le hn]
  omega

theorem wordTierList_mem_range (w : Word) (tm : Char → Option Nat)
    (htm : ∀ c u, tm c = some u → u = 1 ∨ u = 2 ∨ u = 3 ∨ u = 4)
    (x : Nat) (hx : x ∈ wordTierList w tm) : 1 ≤ x ∧ x ≤ 4 := by
  unfold wordTierList at hx
  cases hk : w.kanji with
  | nil => simp [hk] at hx
  | cons f rest =>
    rw [hk] at hx
    change x ∈ List.filterMap tm f.text.data at hx
    obtain ⟨c, hcm, hc⟩ := List.mem_filterMap.mp hx
    have h4 := htm c x hc
    omega

theorem get_word_frequency_tier_range (w : Word) (tm : Char → Option Nat)
    (strategy : String)
    (htm : ∀ c u, tm c = some u → u = 1 ∨ u = 2 ∨ u = 3 ∨ u = 4)
    (t : Nat) (h : get_word_frequency_tier w tm strategy = some t) :
    t = 1 ∨ t = 2 ∨ t = 3 ∨ t = 4 := by
  have hrange := fun x hx => wordTierList_mem_range w tm htm x hx
  unfold get_word_frequency_tier at h
  by_cases ht : wordTierList w tm = []
  · simp [ht] at h
  · have hlen : 0 < (wordTierList w tm).length := List.length_pos.mpr ht
    by_cases ha : strategy = "average"
    · rw [if_neg ht, if_pos ha] at h
      injection h with h
      subst h
      have hsum4 : (wordTierList w tm).sum ≤ 4 * (wordTierList w tm).length :=
        list_sum_le_four _ (fun x hx => (hrange x hx).2)
      have hsum1 : (wordTierList w tm).length ≤ (wordTierList w tm).sum :=
        list_length_le_sum _ (fun x hx => (hrange x hx).1)
      have hup : ceilDivNat (wordTierList w tm).sum (wordTierList w tm).length ≤ 4 :=
        ceilDivNat_le_of_le _ _ _ hlen (by omega)
      have hlo : 1 ≤ ceilDivNat (wordTierList w tm).sum (wordTierList w tm).length :=
        one_le_ceilDivNat _ _ hlen (by omega)
      omega
    · by_cases hf : strategy = "first"
      · rw [if_neg ht, if_neg ha, if_pos hf] at h
        cases htl : wordTierList w tm with
        | nil => exact absurd htl ht
        | cons x rest =>
          rw [htl] at h
          injection h with h
          have hxmem := hrange x (by rw [htl]; exact List.mem_cons_self x rest)
          omega
      · rw [if_neg ht, if_neg ha, if_neg hf] at h
        injection h with h
        subst h
        cases htl : wordTierList w tm with
        | nil => exact absurd htl ht
        | cons x rest =>
          have hx := hrange x (by rw [htl]; exact List.mem_cons_self x rest)
          have hup : (x :: rest).foldl max 0 ≤ 4 := by
            apply foldl_max_le_four _ 0 (by omega)
            intro y hy
            have := hrange y (by rw [htl]; exact hy)
            omega
          have hlo : 1 ≤ (x :: rest).foldl max 0 := by
            simp only [List.foldl_cons]
            have h1 : max 0 x = x := by omega
            rw [h1]
            exact le_trans hx.1 (le_foldl_max rest x)
          omega

theorem lookupTier_calculate_range (freq : List (String × Nat)) (k : String) (t : Nat)
    (h : lookupTier (calculate_frequency_tiers freq) k = some t) :
    t = 1 ∨ t = 2 ∨ t = 3 ∨ t = 4 := by
  unfold lookupTier at h
  cases hf : (calculate_frequency_tiers freq).find? (fun p => p.1 == k) with
  | none => rw [hf] at h; cases h
  | some p =>
    rw [hf] at h
    change some p.2 = some t at h
    injection h with h2
    subst h2
    exact snd_of_mem_calculate_frequency_tiers freq p (List.mem_of_find?_eq_some hf)

/-- C10: in the tiered-deck grouping, a kanji record whose literal has no
tier in the tier map is skipped, a word whose frequency tier is absent is
skipped, and any record that is placed lands in a group whose level is one
of N5..N1 and whose tier is in 1..4 — for kanji because the tier is looked
up in a map built by calculate_frequency_tiers, for words provided every
tier in the map is in 1..4. -/
theorem C10_groups_well_formed (level : Int) (grade : Option Int)
    (freq : List (String × Nat)) (k lvl : String) (t : Nat)
    (w : Word) (jm : Char → Option JLPT) (tm : Char → Option Nat) (strategy : String)
    (htm : ∀ c u, tm c = some u → u = 1 ∨ u = 2 ∨ u = 3 ∨ u = 4) :
    (kanji_group_step level grade none = none)
    ∧ (kanji_group_step level grade (lookupTier (calculate_frequency_tiers freq) k)
        = some (lvl, t) →
        (lvl = "N5" ∨ lvl = "N4" ∨ lvl = "N3" ∨ lvl = "N2" ∨ lvl = "N1")
        ∧ (t = 1 ∨ t = 2 ∨ t = 3 ∨ t = 4))
    ∧ (get_word_frequency_tier w tm strategy = none →
        vocab_group_step w jm tm strategy = none)
    ∧ (∀ lvl2 t2, vocab_group_step w jm tm strategy = some (lvl2, t2) →
        (lvl2 = "N5" ∨ lvl2 = "N4" ∨ lvl2 = "N3" ∨ lvl2 = "N2" ∨ lvl2 = "N1")
        ∧ (t2 = 1 ∨ t2 = 2 ∨ t2 = 3 ∨ t2 = 4)) := by
  refine ⟨?_, ?_, ?_, ?_⟩
  · simp only [kanji_group_step]
    split <;> rfl
  · intro h
    simp only [kanji_group_step] at h
    rcases hlk : lookupTier (calculate_frequency_tiers freq) k with _ | u
    · rw [hlk] at h
      by_cases hmem : get_new_jlpt_level level grade ∈ ["N5", "N4", "N3", "N2", "N1"]
      · rw [if_pos hmem] at h
        simp at h
      · rw [if_neg hmem] at h
        simp at h
    · rw [hlk] at h
      by_cases hmem : get_new_jlpt_level level grade ∈ ["N5", "N4", "N3", "N2", "N1"]
      · rw [if_pos hmem] at h
        change (if u ≠ 0 then some (get_new_jlpt_level level grade, u) else none)
          = some (lvl, t) at h
        by_cases hu : u ≠ 0
        · rw [if_pos hu] at h
          injection h with h2
          have h3 : get_new_jlpt_level level grade = lvl := congrArg Prod.fst h2
          have h4 : u = t := congrArg Prod.snd h2
          subst h4
          constructor
          · rw [← h3]
            simpa using hmem
          · exact lookupTier_calculate_range freq k u hlk
        · rw [if_neg hu] at h
          simp at h
      · rw [if_neg hmem] at h
        simp at h
  · intro h
    simp only [vocab_group_step, h]
    split <;> rfl
  · intro lvl2 t2 h
    simp only [vocab_group_step] at h
    rcases hwt : get_word_frequency_tier w tm strategy with _ | u
    · rw [hwt] at h
      by_cases hmem : (get_word_jlpt_level w jm).toName ∈ ["N5", "N4", "N3", "N2", "N1"]
      · rw [if_pos hmem] at h
        simp at h
      · rw [if_neg hmem] at h
        simp at h
    · rw [hwt] at h
      by_cases hmem : (get_word_jlpt_level w jm).toName ∈ ["N5", "N4", "N3", "N2", "N1"]
      · rw [if_pos hmem] at h
        change (if u ≠ 0 then some ((get_word_jlpt_level w jm).toName, u) else none)
          = some (lvl2, t2) at h
        by_cases hu : u ≠ 0
        · rw [if_pos hu] at h
          injection h with h2
          have h3 : (get_word_jlpt_level w jm).toName = lvl2 := congrArg Prod.fst h2
          have h4 : u = t2 := congrArg Prod.snd h2
          subst h4
          constructor
          · rw [← h3]
            simpa using hmem
          · exact get_word_frequency_tier_range w tm strategy htm u hwt
        · rw [if_neg hu] at h
          simp at h
      · rw [if_neg hmem] at h
        simp at h

/-- Witness for C10 at concrete inputs: a two-entry frequency map sends
the more frequent kanji to tier 1, an old level 4 places it in (N5, 1),
and the record with no tier is skipped. -/
theorem C10_groups_well_formed_witness :
    (kanji_group_step 4 none none = none)
    ∧ ((kanji_group_step 4 none
        (lookupTier (calculate_frequency_tiers [("a", 1), ("b", 2)]) "a") = some ("N5", 1))
      ∧ (("N5" = "N5" ∨ "N5" = "N4" ∨ "N5" = "N3" ∨ "N5" = "N2" ∨ "N5" = "N1")
        ∧ ((1 : Nat) = 1 ∨ (1 : Nat) = 2 ∨ (1 : Nat) = 3 ∨ (1 : Nat) = 4))) := by
  have htm : ∀ c u, (fun (_ : Char) => (none : Option Nat)) c = some u →
      u = 1 ∨ u = 2 ∨ u = 3 ∨ u = 4 := by
    intro c u hc
    cases hc
  refine ⟨(C10_groups_well_formed 4 none [("a", 1), ("b", 2)] "a" "N5" 1
      (Word.mk [] [] []) (fun _ => none) (fun _ => none) "conservative" htm).1,
    by decide,
    (C10_groups_well_formed 4 none [("a", 1), ("b", 2)] "a" "N5" 1
      (Word.mk [] [] []) (fun _ => none) (fun _ => none) "conservative" htm).2.1
      (by decide)⟩
